import Mathlib

/-
  Verification of `src/picking-trainer/picking-trainer-logic.js`.

  Shallow embedding conventions:
  * JS objects become structures; fields that the logic never inspects are
    collected in an opaque `rest` association list so that "all other fields
    pass through unchanged" is expressible.
  * A JS value that may be `null`/`undefined` becomes an `Option`.
  * `Math.random()` is modelled by an injectable draw stream `g : Nat → Nat`
    together with a draw counter `k`: the JS expression
    `Math.floor(Math.random() * n)` (an arbitrary integer in `[0, n-1]`)
    becomes `g k % n`, and `Math.floor(Math.random() * 3) + 1` becomes
    `g k % 3 + 1`.  Every concrete run of the JS code corresponds to some
    stream `g`, and every stream corresponds to a possible run, so
    quantifying over `g` quantifies over all outcomes of the random source.
  * The mutable `remainingStock` dictionary is modelled by an association
    list threaded through the computation; JS property assignment is
    `setLedger` (replace the binding if present, append otherwise) and JS
    property lookup is `lookupLedger`.
-/

namespace PickingTrainer

/-- A product record: `code` is the unique key, `stock` is a possibly-absent
integer stock count (`p.stock ?? 99` in the JS), `rest` stands for the
arbitrary display fields the logic never touches. -/
structure Product where
  code : String
  stock : Option Int
  rest : List (String × String)
  deriving DecidableEq, Repr

/-- A history entry as consumed by `getBestScore` / `migrateHistory`.
`mode` is optional because pre-migration entries may lack it. -/
structure HistoryEntry where
  userId : String
  mode : Option String
  score : Int
  totalAnswered : Int
  timeLimit : Option Int
  rest : List (String × String)
  deriving DecidableEq, Repr

/-- The `options` argument of `getBestScore` (`{ timeLimit: 60 }`). -/
structure GBOptions where
  timeLimit : Option Int
  deriving DecidableEq, Repr

/-- A task generated by `generateRandomTask` / `generateTaskWithStock`. -/
structure Task where
  product : Product
  quantity : Int
  completed : Bool
  found : Option Bool
  deriving DecidableEq, Repr

/-- A slip generated by `generateSlips`. -/
structure Slip where
  slipId : String
  slipNumber : Nat
  tasks : List Task
  completed : Bool
  deriving DecidableEq, Repr

/-- The `remainingStock` dictionary: product code ↦ remaining stock. -/
abbrev Ledger := List (String × Int)

/-- JS dictionary lookup `st[c]` (as an `Option`: `none` = key absent). -/
def lookupLedger : Ledger → String → Option Int
  | [], _ => none
  | q :: rest, c => if q.1 = c then some q.2 else lookupLedger rest c

/-- JS dictionary assignment `st[c] = v`: replace the binding for `c` if
present, append it otherwise. -/
def setLedger : Ledger → String → Int → Ledger
  | [], c, v => [(c, v)]
  | q :: rest, c, v => if q.1 = c then (c, v) :: rest else q :: setLedger rest c v

/-- Effective stock of a product: `p.stock ?? 99`. -/
def effStock (p : Product) : Int :=
  p.stock.getD 99

/-- `remainingStock[p.code] ?? (p.stock ?? 99)` from `generateTaskWithStock`. -/
def remStock (st : Ledger) (p : Product) : Int :=
  (lookupLedger st p.code).getD (effStock p)

/-- The JS expression `x || y` for a possibly-absent string `x`: a missing
value and the empty string are falsy, everything else is returned as-is. -/
def jsOrStr (a : Option String) (b : String) : String :=
  match a with
  | none => b
  | some s => if s = "" then b else s

/-- `Math.max(...xs)` for a nonempty argument list (the JS code guards the
empty case before calling it). -/
def listMax : List Int → Int
  | [] => 0
  | x :: xs => xs.foldl max x

/-- `getBestScore(history, userId, mode, options)` (lines 21-32).
`options && options.timeLimit` is JS truthiness: the time-attack branch is
taken only when `options` is present and `options.timeLimit` is a nonzero
number. -/
def getBestScore (history : List HistoryEntry) (userId : String) (mode : String)
    (options : Option GBOptions) : Option Int :=
  let filtered := history.filter (fun h => h.userId == userId && h.mode == some mode)
  let bestScore : Option Int :=
    if filtered.isEmpty then none else some (listMax (filtered.map (fun h => h.score)))
  if mode == "timeAttack" then
    match options with
    | some o =>
      match o.timeLimit with
      | some t =>
        if t == 0 then bestScore
        else
          let f2 := filtered.filter (fun h => h.timeLimit == some t)
          if f2.isEmpty then none else some (listMax (f2.map (fun h => h.totalAnswered)))
      | none => bestScore
    | none => bestScore
  else bestScore

/-- `migrateHistory(history)` (lines 41-46): `{...h, mode: h.mode || 'normal'}`. -/
def migrateHistory (history : List HistoryEntry) : List HistoryEntry :=
  history.map (fun h => { h with mode := some (jsOrStr h.mode "normal") })

/-- `migrateProducts(products)` (lines 51-56): `{...p, stock: p.stock ?? 99}`. -/
def migrateProducts (products : List Product) : List Product :=
  products.map (fun p => { p with stock := some (p.stock.getD 99) })

/-- `trimHistory(history)` (lines 61-64): keep at most the last 500 entries
(`history.slice(-500)`). -/
def trimHistory {α : Type} (history : List α) : List α :=
  if history.length ≤ 500 then history
  else history.drop (history.length - 500)

/-- `generateRandomTask(products)` (lines 73-86).  Consumes two draws (index
into the available list at `k`, quantity roll at `k + 1`) when a task is
produced, none otherwise.  It is pure: no stock field and no ledger is
decremented. -/
def generateRandomTask (g : Nat → Nat) (k : Nat) (products : List Product) :
    Option Task :=
  let available := products.filter (fun p => 0 < effStock p)
  if h : available.length = 0 then none
  else
    let product := available.get ⟨g k % available.length,
      Nat.mod_lt _ (Nat.pos_of_ne_zero h)⟩
    let stock := effStock product
    let quantity : Int := min ((g (k + 1) % 3 + 1 : Nat) : Int) stock
    some { product := product, quantity := quantity, completed := false, found := none }

/-- `generateRandomTasks(products, count)` (lines 91-100): call the
single-task generator `count` times, keeping non-null results. -/
def generateRandomTasks (g : Nat → Nat) (products : List Product) :
    Nat → Nat → List Task
  | 0, _ => []
  | n + 1, k =>
    match generateRandomTask g k products with
    | some t => t :: generateRandomTasks g products n (k + 2)
    | none => generateRandomTasks g products n k

/-- `generateTaskWithStock(products, remainingStock, usedCodes)`
(lines 113-131).  Returns the task (or `none`), the updated ledger and
the advanced draw counter. -/
def generateTaskWithStock (g : Nat → Nat) (k : Nat) (products : List Product)
    (remainingStock : Ledger) (usedCodes : Option (List String)) :
    Option Task × Ledger × Nat :=
  let avail0 := products.filter (fun p => 0 < remStock remainingStock p)
  let available :=
    match usedCodes with
    | some used => avail0.filter (fun p : Product => !(used.contains p.code))
    | none => avail0
  if h : available.length = 0 then (none, remainingStock, k)
  else
    let product := available.get ⟨g k % available.length,
      Nat.mod_lt _ (Nat.pos_of_ne_zero h)⟩
    let stock := remStock remainingStock product
    let quantity : Int := min ((g (k + 1) % 3 + 1 : Nat) : Int) stock
    (some { product := product, quantity := quantity, completed := false, found := none },
      setLedger remainingStock product.code (stock - quantity), k + 2)

/-- The inner loop of `generateSlips` (lines 144-152): try to add
`itemsPerSlip` tasks to one slip, accumulating `usedCodes` and threading the
ledger and the draw counter.  A `null` from the generator is skipped (the JS
loop does not break). -/
def genSlipTasks (g : Nat → Nat) (products : List Product) :
    Nat → List String → Ledger → Nat → List Task × Ledger × Nat
  | 0, _, st, k => ([], st, k)
  | j + 1, used, st, k =>
    match generateTaskWithStock g k products st (some used) with
    | (some t, st2, k2) =>
      let r := genSlipTasks g products j (t.product.code :: used) st2 k2
      (t :: r.1, r.2)
    | (none, st2, k2) => genSlipTasks g products j used st2 k2

/-- The outer loop of `generateSlips` (lines 143-159): build `n` more slips
starting at index `i`. -/
def genSlipsAux (g : Nat → Nat) (products : List Product) (itemsPerSlip : Nat) :
    Nat → Nat → Ledger → Nat → List Slip
  | 0, _, _, _ => []
  | n + 1, i, st, k =>
    let r := genSlipTasks g products itemsPerSlip [] st k
    { slipId := "slip-" ++ toString i, slipNumber := i + 1,
      tasks := r.1, completed := false } ::
      genSlipsAux g products itemsPerSlip n (i + 1) r.2.1 r.2.2

/-- The ledger initialization of `generateSlips` (lines 137-140):
`remainingStock[p.code] = p.stock ?? 99` for each product in order. -/
def initLedger (products : List Product) : Ledger :=
  products.foldl (fun st p => setLedger st p.code (effStock p)) []

/-- `generateSlips(products, slipCount, itemsPerSlip)` (lines 136-161). -/
def generateSlips (g : Nat → Nat) (products : List Product)
    (slipCount itemsPerSlip : Nat) : List Slip :=
  genSlipsAux g products itemsPerSlip slipCount 0 (initLedger products) 0

/-- The flattened task sequence of a batch of slips
(`slips.flatMap(slip => slip.tasks)`, as in `getSlipsSummary`). -/
def allTasks (slips : List Slip) : List Task :=
  slips.flatMap (fun s => s.tasks)

/-- Total quantity over all tasks bearing a given product code. -/
def taskSum (c : String) (ts : List Task) : Int :=
  ((ts.filter (fun t => t.product.code == c)).map (fun t => t.quantity)).sum

/-- Modelled from the spec: the JS `escapeHtml` delegates to the browser DOM
(`div.textContent = str; return div.innerHTML`), which is not part of this
repository, so the escaping is modelled from the spec's words: a pure
string-substitution table mapping each of the five HTML-special characters
`& < > " '` to its entity equivalent.  This is the per-character table. -/
def escapeChar (c : Char) : List Char :=
  if c = '&' then ['&', 'a', 'm', 'p', ';']
  else if c = '<' then ['&', 'l', 't', ';']
  else if c = '>' then ['&', 'g', 't', ';']
  else if c = '"' then ['&', 'q', 'u', 'o', 't', ';']
  else if c = Char.ofNat 39 then ['&', '#', '3', '9', ';']
  else [c]

/-- Modelled from the spec: `escapeHtml(str)` as the five-character entity
substitution (see `escapeChar`). -/
def escapeHtml (s : String) : String :=
  ⟨s.data.flatMap escapeChar⟩

/-- The inverse direction of the escaping: decoding the five entities
`&amp; &lt; &gt; &quot; &#39;` back to the characters they stand for.  This is
how "inserting the result as text content renders the original literal
string" is expressed. -/
def unescapeChars : List Char → List Char
  | [] => []
  | c :: rest =>
    if c = '&' then
      if rest.take 4 = ['a', 'm', 'p', ';'] then '&' :: unescapeChars (rest.drop 4)
      else if rest.take 3 = ['l', 't', ';'] then '<' :: unescapeChars (rest.drop 3)
      else if rest.take 3 = ['g', 't', ';'] then '>' :: unescapeChars (rest.drop 3)
      else if rest.take 5 = ['q', 'u', 'o', 't', ';'] then '"' :: unescapeChars (rest.drop 5)
      else if rest.take 4 = ['#', '3', '9', ';'] then Char.ofNat 39 :: unescapeChars (rest.drop 4)
      else c :: unescapeChars rest
    else c :: unescapeChars rest
  termination_by l => l.length
  decreasing_by
    all_goals simp [List.length_drop]
    all_goals omega

/-- Entity decoding lifted to strings. -/
def unescapeHtml (s : String) : String :=
  ⟨unescapeChars s.data⟩

/-- The amended C3 claim, stated in the spec's own shape: entries whose
`mode` is missing or the empty string get `"normal"`, every other entry
passes through entirely unchanged. -/
def migrateHistorySpec (history : List HistoryEntry) : List HistoryEntry :=
  history.map (fun h =>
    match h.mode with
    | none => { h with mode := some "normal" }
    | some m => if m = "" then { h with mode := some "normal" } else h)

/-- The C8 claim, stated in the spec's own shape: products whose `stock` is
missing get `99`, every other product passes through entirely unchanged
(a present `0` included). -/
def migrateProductsSpec (products : List Product) : List Product :=
  products.map (fun p =>
    match p.stock with
    | none => { p with stock := some 99 }
    | some _ => p)

theorem unescape_escapeChar (c : Char) (xs : List Char) :
    unescapeChars (escapeChar c ++ xs) = c :: unescapeChars xs := by
  by_cases h1 : c = '&'
  · subst h1
    have he : escapeChar '&' = ['&','a','m','p',';'] := by decide
    rw [he]
    simp only [List.cons_append, List.nil_append]
    rw [unescapeChars]
    simp
  by_cases h2 : c = '<'
  · subst h2
    have he : escapeChar '<' = ['&','l','t',';'] := by decide
    rw [he]
    simp only [List.cons_append, List.nil_append]
    rw [unescapeChars]
    simp
  by_cases h3 : c = '>'
  · subst h3
    have he : escapeChar '>' = ['&','g','t',';'] := by decide
    rw [he]
    simp only [List.cons_append, List.nil_append]
    rw [unescapeChars]
    simp
  by_cases h4 : c = '"'
  · subst h4
    have he : escapeChar '"' = ['&','q','u','o','t',';'] := by decide
    rw [he]
    simp only [List.cons_append, List.nil_append]
    rw [unescapeChars]
    simp
  by_cases h5 : c = Char.ofNat 39
  · subst h5
    have he : escapeChar (Char.ofNat 39) = ['&','#','3','9',';'] := by decide
    rw [he]
    simp only [List.cons_append, List.nil_append]
    rw [unescapeChars]
    simp
  · have he : escapeChar c = [c] := by
      simp [escapeChar, h1, h2, h3, h4, h5]
    rw [he]
    simp only [List.cons_append, List.nil_append]
    rw [unescapeChars]
    simp [h1]

theorem unescape_escape_list (l : List Char) :
    unescapeChars (l.flatMap escapeChar) = l := by
  induction l with
  | nil => simp [unescapeChars]
  | cons c rest ih =>
    rw [List.flatMap_cons, unescape_escapeChar, ih]

theorem escapeChar_no_special (c : Char) :
    ∀ d ∈ escapeChar c,
      d ≠ '<' ∧ d ≠ '>' ∧ d ≠ '"' ∧ d ≠ Char.ofNat 39 := by
  by_cases h1 : c = '&'
  · subst h1; decide
  by_cases h2 : c = '<'
  · subst h2; decide
  by_cases h3 : c = '>'
  · subst h3; decide
  by_cases h4 : c = '"'
  · subst h4; decide
  by_cases h5 : c = Char.ofNat 39
  · subst h5; decide
  · intro d hd
    simp [escapeChar, h1, h2, h3, h4, h5] at hd
    subst hd
    exact ⟨h2, h3, h4, h5⟩

/-- C2: for every input string, `escapeHtml` (modelled from the spec as the
five-character entity substitution, the DOM serializer not being part of the
repository) returns a string containing no literal `<`, no literal `>` and no
unescaped quote character (indeed no quote character at all), and decoding the
entities (`unescapeHtml`, i.e. rendering the result as text) yields the
original literal string. -/
theorem escapeHtml_escapes_specials (s : String) :
    ((escapeHtml s).data.all fun c =>
      !(c == '<') && !(c == '>') && !(c == '"') && !(c == Char.ofNat 39)) = true ∧
    unescapeHtml (escapeHtml s) = s := by
  constructor
  · rw [List.all_eq_true]
    intro c hc
    have hc2 : c ∈ s.data.flatMap escapeChar := hc
    rw [List.mem_flatMap] at hc2
    obtain ⟨a, _, hca⟩ := hc2
    have h := escapeChar_no_special a c hca
    simp only [Bool.and_eq_true, Bool.not_eq_true', beq_eq_false_iff_ne, ne_eq]
    exact ⟨⟨⟨h.1, h.2.1⟩, h.2.2.1⟩, h.2.2.2⟩
  · show (⟨unescapeChars (s.data.flatMap escapeChar)⟩ : String) = s
    rw [unescape_escape_list]

/-- C6: `trimHistory H` has length `min |H| 500` and equals the last
`min |H| 500` elements of `H` in their original order; when `|H| ≤ 500` the
input is returned as-is. -/
theorem trimHistory_last_500 {α : Type} (l : List α) :
    (trimHistory l).length = min l.length 500 ∧
    trimHistory l = l.drop (l.length - min l.length 500) ∧
    (l.length ≤ 500 → trimHistory l = l) := by
  unfold trimHistory
  by_cases h : l.length ≤ 500
  · have hm : min l.length 500 = l.length := by omega
    simp [h, hm]
  · have hm : min l.length 500 = 500 := by omega
    simp [h, hm]
    omega

theorem jsOrStr_normal_ne_empty (a : Option String) : jsOrStr a "normal" ≠ "" := by
  cases a with
  | none => simp [jsOrStr]
  | some s =>
    by_cases h : s = "" <;> simp [jsOrStr, h]

/-- C3 (amended): `migrateHistory` assigns mode `"normal"` exactly to the
entries whose `mode` field is missing or the empty string; all other fields,
and any nonempty present mode value, pass through unchanged
(`migrateHistorySpec` is that statement written out).  The original claim
(only missing modes are rewritten) fails: see
`migrateHistory_empty_mode_cex`. -/
theorem migrateHistory_missing_or_empty (l : List HistoryEntry) :
    migrateHistory l = migrateHistorySpec l := by
  unfold migrateHistory migrateHistorySpec
  apply List.map_congr_left
  intro h _
  cases hm : h.mode with
  | none => simp [jsOrStr]
  | some m =>
    by_cases he : m = ""
    · simp [jsOrStr, he]
    · simp [jsOrStr, he]
      cases h
      simp_all

/-- C8: `migrateProducts` assigns stock `99` exactly to the products whose
`stock` field is missing, preserving every present stock value — `0`
included — and all other fields unchanged (`migrateProductsSpec` is that
statement written out). -/
theorem migrateProducts_defaults_missing_stock (l : List Product) :
    migrateProducts l = migrateProductsSpec l := by
  unfold migrateProducts migrateProductsSpec
  apply List.map_congr_left
  intro p _
  cases hs : p.stock with
  | none => simp
  | some v =>
    simp
    cases p
    simp_all

theorem jsOrStr_absorb (a : Option String) :
    jsOrStr (some (jsOrStr a "normal")) "normal" = jsOrStr a "normal" := by
  show (if jsOrStr a "normal" = "" then "normal" else jsOrStr a "normal") = jsOrStr a "normal"
  rw [if_neg (jsOrStr_normal_ne_empty a)]

/-- C9: `migrateHistory` and `migrateProducts` are idempotent: applying
either twice equals applying it once. -/
theorem migrations_idempotent (hs : List HistoryEntry) (ps : List Product) :
    migrateHistory (migrateHistory hs) = migrateHistory hs ∧
    migrateProducts (migrateProducts ps) = migrateProducts ps := by
  constructor
  · unfold migrateHistory
    rw [List.map_map]
    apply List.map_congr_left
    intro h _
    show ({ { h with mode := some (jsOrStr h.mode "normal") } with
        mode := some (jsOrStr (some (jsOrStr h.mode "normal")) "normal") } : HistoryEntry) =
      { h with mode := some (jsOrStr h.mode "normal") }
    rw [jsOrStr_absorb]
  · unfold migrateProducts
    rw [List.map_map]
    apply List.map_congr_left
    intro p _
    simp [Function.comp]

/-- C3 counterexample: an entry with the *present* mode value `""` is not
passed through unchanged — the JS `h.mode || 'normal'` rewrites it to
`"normal"` because the empty string is falsy. -/
theorem migrateHistory_empty_mode_cex :
    migrateHistory [⟨"u", some "", 0, 0, none, []⟩] ≠ [⟨"u", some "", 0, 0, none, []⟩] := by
  decide

theorem le_foldl_max (xs : List Int) (a : Int) : a ≤ xs.foldl max a := by
  induction xs generalizing a with
  | nil => simp
  | cons x xs ih =>
    simp only [List.foldl_cons]
    exact le_trans (le_max_left a x) (ih (max a x))

theorem foldl_max_mem (xs : List Int) (a : Int) :
    xs.foldl max a = a ∨ xs.foldl max a ∈ xs := by
  induction xs generalizing a with
  | nil => left; rfl
  | cons x xs ih =>
    simp only [List.foldl_cons]
    rcases ih (max a x) with h | h
    · rcases max_cases a x with ⟨h2, _⟩ | ⟨h2, _⟩
      · left; rw [h, h2]
      · right; rw [h, h2]; exact List.mem_cons_self x xs
    · right; exact List.mem_cons_of_mem x h

theorem mem_le_foldl_max (xs : List Int) (a : Int) (x : Int) (hx : x ∈ xs) :
    x ≤ xs.foldl max a := by
  induction xs generalizing a with
  | nil => cases hx
  | cons y ys ih =>
    simp only [List.foldl_cons]
    rcases List.mem_cons.mp hx with rfl | h
    · exact le_trans (le_max_right a x) (le_foldl_max ys (max a x))
    · exact ih (max a y) h

theorem listMax_mem (l : List Int) (h : l ≠ []) : listMax l ∈ l := by
  cases l with
  | nil => exact absurd rfl h
  | cons x xs =>
    show xs.foldl max x ∈ x :: xs
    rcases foldl_max_mem xs x with h2 | h2
    · rw [h2]; exact List.mem_cons_self x xs
    · exact List.mem_cons_of_mem x h2

theorem le_listMax (l : List Int) (x : Int) (hx : x ∈ l) : x ≤ listMax l := by
  cases l with
  | nil => cases hx
  | cons y ys =>
    show x ≤ ys.foldl max y
    rcases List.mem_cons.mp hx with rfl | h
    · exact le_foldl_max ys x
    · exact mem_le_foldl_max ys y x h

theorem bestAux_spec (l : List HistoryEntry) (f : HistoryEntry → Int) :
    ((if l.isEmpty then none else some (listMax (l.map f))) = (none : Option Int) ↔ l = []) ∧
    ∀ v, (if l.isEmpty then none else some (listMax (l.map f))) = some v →
      (∃ h ∈ l, f h = v) ∧ ∀ h ∈ l, f h ≤ v := by
  by_cases h : l.isEmpty
  · rw [List.isEmpty_iff] at h
    subst h
    simp
  · have hne : l ≠ [] := by
      rw [List.isEmpty_iff] at h
      exact h
    rw [if_neg (by simpa using h)]
    constructor
    · simp [hne]
    · intro v hv
      have hv2 : listMax (l.map f) = v := by
        injection hv
      constructor
      · have hmem := listMax_mem (l.map f) (by simpa using hne)
        rw [hv2] at hmem
        rw [List.mem_map] at hmem
        obtain ⟨a, ha, hfa⟩ := hmem
        exact ⟨a, ha, hfa⟩
      · intro a ha
        have := le_listMax (l.map f) (f a) (List.mem_map_of_mem f ha)
        rw [hv2] at this
        exact this

theorem getBestScore_eq_TA (H : List HistoryEntry) (u : String) (o : GBOptions)
    (t : Int) (ht : o.timeLimit = some t) (htz : t ≠ 0) :
    getBestScore H u "timeAttack" (some o) =
      (if ((H.filter (fun h => h.userId == u && h.mode == some "timeAttack")).filter
            (fun h => h.timeLimit == some t)).isEmpty then none
       else some (listMax (((H.filter (fun h => h.userId == u && h.mode == some "timeAttack")).filter
            (fun h => h.timeLimit == some t)).map (fun h => h.totalAnswered)))) := by
  unfold getBestScore
  simp [ht, htz]

theorem getBestScore_eq_fallback (H : List HistoryEntry) (u m : String)
    (o : Option GBOptions)
    (hg : ¬(m = "timeAttack" ∧ ∃ oo t, o = some oo ∧ oo.timeLimit = some t ∧ t ≠ 0)) :
    getBestScore H u m o =
      (if (H.filter (fun h => h.userId == u && h.mode == some m)).isEmpty then none
       else some (listMax ((H.filter (fun h => h.userId == u && h.mode == some m)).map
          (fun h => h.score)))) := by
  unfold getBestScore
  by_cases hm : m = "timeAttack"
  · subst hm
    cases o with
    | none => simp
    | some oo =>
      cases ht : oo.timeLimit with
      | none => simp [ht]
      | some t =>
        have htz : t = 0 := by
          by_contra hne
          exact hg ⟨rfl, oo, t, rfl, ht, hne⟩
        subst htz
        simp [ht]
  · simp [hm]

/-- C4 (amended): if the mode is `"timeAttack"` and `options.timeLimit` is
given and nonzero, `getBestScore` returns `none` exactly when no entry
matches the user, the mode and that exact time limit, and otherwise the
maximum `totalAnswered` among the matching entries; in every other case
(a given time limit of `0` included) it returns `none` exactly when no entry
matches the user and the mode, and otherwise the maximum `score` among the
matching entries — so the result is always `none` or some matching entry's
field value, with no matching entry higher.  The original claim (any *given*
`timeLimit` triggers the time-attack branch) fails at `timeLimit = 0`: see
`getBestScore_zero_timeLimit_cex`. -/
theorem getBestScore_best (H : List HistoryEntry) (u m : String) (o : Option GBOptions) :
    (∀ oo t, m = "timeAttack" → o = some oo → oo.timeLimit = some t → t ≠ 0 →
      ((getBestScore H u m o = none ↔
          ∀ h ∈ H, ¬(h.userId = u ∧ h.mode = some m ∧ h.timeLimit = some t)) ∧
        ∀ v, getBestScore H u m o = some v →
          (∃ h ∈ H, h.userId = u ∧ h.mode = some m ∧ h.timeLimit = some t ∧
            h.totalAnswered = v) ∧
          ∀ h ∈ H, h.userId = u → h.mode = some m → h.timeLimit = some t →
            h.totalAnswered ≤ v)) ∧
    ((¬(m = "timeAttack" ∧ ∃ oo t, o = some oo ∧ oo.timeLimit = some t ∧ t ≠ 0)) →
      ((getBestScore H u m o = none ↔ ∀ h ∈ H, ¬(h.userId = u ∧ h.mode = some m)) ∧
        ∀ v, getBestScore H u m o = some v →
          (∃ h ∈ H, h.userId = u ∧ h.mode = some m ∧ h.score = v) ∧
          ∀ h ∈ H, h.userId = u → h.mode = some m → h.score ≤ v)) := by
  constructor
  · intro oo t hm ho ht htz
    subst hm
    subst ho
    have hmem : ∀ h : HistoryEntry,
        (h ∈ (H.filter (fun h => h.userId == u && h.mode == some "timeAttack")).filter
            (fun h => h.timeLimit == some t)) ↔
          (h ∈ H ∧ h.userId = u ∧ h.mode = some "timeAttack" ∧ h.timeLimit = some t) := by
      intro h
      simp only [List.mem_filter, Bool.and_eq_true, beq_iff_eq]
      tauto
    have hb := bestAux_spec
      ((H.filter (fun h => h.userId == u && h.mode == some "timeAttack")).filter
        (fun h => h.timeLimit == some t)) (fun h => h.totalAnswered)
    rw [getBestScore_eq_TA H u oo t ht htz]
    constructor
    · rw [hb.1]
      constructor
      · intro hnil h hH hm2
        exact (List.eq_nil_iff_forall_not_mem.mp hnil h)
          ((hmem h).mpr ⟨hH, hm2.1, hm2.2.1, hm2.2.2⟩)
      · intro hall
        rw [List.eq_nil_iff_forall_not_mem]
        intro h hmemF
        obtain ⟨hH, hu2, hm2, ht2⟩ := (hmem h).mp hmemF
        exact hall h hH ⟨hu2, hm2, ht2⟩
    · intro v hv
      obtain ⟨⟨a, haF, hav⟩, hub⟩ := hb.2 v hv
      obtain ⟨haH, hau, ham, hat⟩ := (hmem a).mp haF
      refine ⟨⟨a, haH, hau, ham, hat, hav⟩, ?_⟩
      intro h hH hu2 hm2 ht2
      exact hub h ((hmem h).mpr ⟨hH, hu2, hm2, ht2⟩)
  · intro hg
    have hmem : ∀ h : HistoryEntry,
        (h ∈ H.filter (fun h => h.userId == u && h.mode == some m)) ↔
          (h ∈ H ∧ h.userId = u ∧ h.mode = some m) := by
      intro h
      simp only [List.mem_filter, Bool.and_eq_true, beq_iff_eq, and_assoc]
    have hb := bestAux_spec
      (H.filter (fun h => h.userId == u && h.mode == some m)) (fun h => h.score)
    rw [getBestScore_eq_fallback H u m o hg]
    constructor
    · rw [hb.1]
      constructor
      · intro hnil h hH hm2
        exact (List.eq_nil_iff_forall_not_mem.mp hnil h)
          ((hmem h).mpr ⟨hH, hm2.1, hm2.2⟩)
      · intro hall
        rw [List.eq_nil_iff_forall_not_mem]
        intro h hmemF
        obtain ⟨hH, hu2, hm2⟩ := (hmem h).mp hmemF
        exact hall h hH ⟨hu2, hm2⟩
    · intro v hv
      obtain ⟨⟨a, haF, hav⟩, hub⟩ := hb.2 v hv
      obtain ⟨haH, hau, ham⟩ := (hmem a).mp haF
      refine ⟨⟨a, haH, hau, ham, hav⟩, ?_⟩
      intro h hH hu2 hm2
      exact hub h ((hmem h).mpr ⟨hH, hu2, hm2⟩)

theorem generateRandomTask_eq_none_iff (g : Nat → Nat) (k : Nat) (products : List Product) :
    (generateRandomTask g k products = none) ↔
      products.filter (fun p => 0 < effStock p) = [] := by
  rw [generateRandomTask]
  split
  · next h =>
    simp only [true_iff]
    exact List.length_eq_zero.mp h
  · rename_i h
    constructor
    · intro hc
      cases hc
    · intro hc
      exact absurd (by rw [hc]; rfl) h

theorem generateRandomTask_some_elim (g : Nat → Nat) (k : Nat) (products : List Product)
    (t : Task) (h : generateRandomTask g k products = some t) :
    t.product ∈ products.filter (fun p => 0 < effStock p) ∧
    t.quantity = min ((g (k + 1) % 3 + 1 : Nat) : Int) (effStock t.product) ∧
    t.completed = false ∧ t.found = none := by
  rw [generateRandomTask] at h
  split at h
  · cases h
  · next hlen =>
    injection h with h
    subst h
    exact ⟨List.get_mem _ _ _, rfl, rfl, rfl⟩

/-- C7: `generateRandomTask` returns `none` iff no product has effective
stock `> 0`; otherwise the returned task's product belongs to the available
set, its quantity is `min r eff` for some random `r ∈ [1,3]` (hence
`1 ≤ quantity ≤` effective stock), `completed = false` and `found = none`.
The embedding is pure, so the function decrements no stock field and no
ledger by construction. -/
theorem generateRandomTask_spec (g : Nat → Nat) (k : Nat) (products : List Product) :
    ((generateRandomTask g k products = none) ↔
      products.filter (fun p => 0 < effStock p) = []) ∧
    ∀ t, generateRandomTask g k products = some t →
      t.product ∈ products.filter (fun p => 0 < effStock p) ∧
      (∃ r : Nat, 1 ≤ r ∧ r ≤ 3 ∧ t.quantity = min (r : Int) (effStock t.product)) ∧
      1 ≤ t.quantity ∧ t.quantity ≤ effStock t.product ∧
      t.completed = false ∧ t.found = none := by
  refine ⟨generateRandomTask_eq_none_iff g k products, ?_⟩
  intro t ht
  obtain ⟨hmem, hq, hc, hf⟩ := generateRandomTask_some_elim g k products t ht
  have hpos : 0 < effStock t.product := by
    have := List.mem_filter.mp hmem
    simpa using this.2
  refine ⟨hmem, ⟨g (k + 1) % 3 + 1, by omega, by omega, hq⟩, ?_, ?_, hc, hf⟩
  · rw [hq]
    apply le_min
    · have : (1 : Nat) ≤ g (k + 1) % 3 + 1 := by omega
      exact_mod_cast this
    · omega
  · rw [hq]
    exact min_le_right _ _

/-- C10: `generateRandomTasks products count` returns exactly `count` tasks
when at least one product has effective stock `> 0`, and the empty list
otherwise — availability does not change between iterations because no stock
is decremented, so the length is never strictly between `0` and `count`. -/
theorem generateRandomTasks_count (g : Nat → Nat) (products : List Product)
    (count k : Nat) :
    (products.filter (fun p => 0 < effStock p) ≠ [] →
      (generateRandomTasks g products count k).length = count) ∧
    (products.filter (fun p => 0 < effStock p) = [] →
      generateRandomTasks g products count k = []) := by
  induction count generalizing k with
  | zero => exact ⟨fun _ => rfl, fun _ => rfl⟩
  | succ n ih =>
    constructor
    · intro hne
      rw [generateRandomTasks]
      cases hgen : generateRandomTask g k products with
      | none =>
        exact absurd ((generateRandomTask_eq_none_iff g k products).mp hgen) hne
      | some t =>
        simp only [List.length_cons]
        rw [(ih (k + 2)).1 hne]
    · intro he
      rw [generateRandomTasks]
      rw [(generateRandomTask_eq_none_iff g k products).mpr he]
      exact (ih k).2 he

theorem lookup_setLedger_same (st : Ledger) (c : String) (v : Int) :
    lookupLedger (setLedger st c v) c = some v := by
  induction st with
  | nil => simp [setLedger, lookupLedger]
  | cons q rest ih =>
    by_cases h : q.1 = c
    · simp [setLedger, h, lookupLedger]
    · simp [setLedger, h, lookupLedger, ih]

theorem lookup_setLedger_other (st : Ledger) (c c2 : String) (v : Int) (h : c2 ≠ c) :
    lookupLedger (setLedger st c v) c2 = lookupLedger st c2 := by
  induction st with
  | nil =>
    simp [setLedger, lookupLedger]
    intro hc
    exact absurd hc.symm h
  | cons q rest ih =>
    by_cases h2 : q.1 = c
    · have hcc : ¬ c = c2 := fun hh => h hh.symm
      simp [setLedger, h2, lookupLedger, hcc]
    · simp [setLedger, h2, lookupLedger, ih]

theorem taskSum_nil (c : String) : taskSum c [] = 0 := rfl

theorem taskSum_cons_eq (c : String) (t : Task) (ts : List Task)
    (h : t.product.code = c) :
    taskSum c (t :: ts) = t.quantity + taskSum c ts := by
  simp [taskSum, List.filter_cons, h]

theorem taskSum_cons_ne (c : String) (t : Task) (ts : List Task)
    (h : t.product.code ≠ c) :
    taskSum c (t :: ts) = taskSum c ts := by
  simp [taskSum, List.filter_cons, h]

theorem taskSum_append (c : String) (ts1 ts2 : List Task) :
    taskSum c (ts1 ++ ts2) = taskSum c ts1 + taskSum c ts2 := by
  simp [taskSum, List.filter_append]

theorem generateTaskWithStock_cases (g : Nat → Nat) (k : Nat) (products : List Product)
    (st : Ledger) (used : List String) :
    (generateTaskWithStock g k products st (some used) = (none, st, k)) ∨
    ∃ t, generateTaskWithStock g k products st (some used) =
        (some t, setLedger st t.product.code (remStock st t.product - t.quantity), k + 2) ∧
      t.product ∈ products ∧ 0 < remStock st t.product ∧
      t.product.code ∉ used ∧
      1 ≤ t.quantity ∧ t.quantity ≤ remStock st t.product := by
  rw [generateTaskWithStock]
  simp only
  split
  · left
    rfl
  · rename_i hlen
    right
    have hmem : (((products.filter (fun p => 0 < remStock st p)).filter
        (fun p : Product => !(used.contains p.code))).get
          ⟨g k % ((products.filter (fun p => 0 < remStock st p)).filter
            (fun p : Product => !(used.contains p.code))).length,
           Nat.mod_lt _ (Nat.pos_of_ne_zero hlen)⟩) ∈
        ((products.filter (fun p => 0 < remStock st p)).filter
          (fun p : Product => !(used.contains p.code))) :=
      List.get_mem _ _ _
    have h1 := (List.mem_filter.mp hmem).1
    have hnotused : _ := (List.mem_filter.mp hmem).2
    have hprod := (List.mem_filter.mp h1).1
    have hpos : _ := (List.mem_filter.mp h1).2
    refine ⟨_, rfl, hprod, ?_, ?_, ?_, ?_⟩
    · simpa using hpos
    · simpa using hnotused
    · apply le_min
      · have h1n : (1 : Nat) ≤ g (k + 1) % 3 + 1 := by omega
        exact_mod_cast h1n
      · have hpos2 := of_decide_eq_true hpos
        omega
    · exact min_le_right _ _

theorem genSlipTasks_ledger (g : Nat → Nat) (products : List Product) (j : Nat) :
    ∀ (used : List String) (st : Ledger) (k : Nat) (c : String) (v : Int),
      lookupLedger st c = some v → 0 ≤ v →
      ∃ v2, lookupLedger (genSlipTasks g products j used st k).2.1 c = some v2 ∧
        0 ≤ v2 ∧ v2 + taskSum c (genSlipTasks g products j used st k).1 = v := by
  induction j with
  | zero =>
    intro used st k c v hv hnn
    exact ⟨v, hv, hnn, by simp [genSlipTasks, taskSum_nil]⟩
  | succ n ih =>
    intro used st k c v hv hnn
    rcases generateTaskWithStock_cases g k products st used with
      hcase | ⟨t, heq, hmemp, hpos, hnu, hq1, hq2⟩
    · rw [genSlipTasks, hcase]
      exact ih used st k c v hv hnn
    · rw [genSlipTasks, heq]
      simp only
      by_cases hc : t.product.code = c
      · have hrem : remStock st t.product = v := by
          unfold remStock
          rw [hc, hv]
          rfl
        have hlook2 : lookupLedger (setLedger st t.product.code
            (remStock st t.product - t.quantity)) c = some (v - t.quantity) := by
          rw [hrem, hc]
          exact lookup_setLedger_same st c (v - t.quantity)
        have hnn2 : 0 ≤ v - t.quantity := by
          rw [hrem] at hq2
          omega
        obtain ⟨v2, hl3, hnn3, hsum3⟩ :=
          ih (t.product.code :: used) _ (k + 2) c (v - t.quantity) hlook2 hnn2
        refine ⟨v2, hl3, hnn3, ?_⟩
        rw [taskSum_cons_eq c t _ hc]
        omega
      · have hlook2 : lookupLedger (setLedger st t.product.code
            (remStock st t.product - t.quantity)) c = some v := by
          rw [lookup_setLedger_other st t.product.code c _ (fun hh => hc hh.symm)]
          exact hv
        obtain ⟨v2, hl3, hnn3, hsum3⟩ :=
          ih (t.product.code :: used) _ (k + 2) c v hlook2 hnn
        refine ⟨v2, hl3, hnn3, ?_⟩
        rw [taskSum_cons_ne c t _ hc]
        exact hsum3

theorem genSlipTasks_codes (g : Nat → Nat) (products : List Product) (j : Nat) :
    ∀ (used : List String) (st : Ledger) (k : Nat),
      ((genSlipTasks g products j used st k).1.map (fun t => t.product.code)).Pairwise (· ≠ ·) ∧
      ∀ t ∈ (genSlipTasks g products j used st k).1, t.product.code ∉ used := by
  induction j with
  | zero =>
    intro used st k
    constructor
    · simp [genSlipTasks]
    · intro t ht
      simp [genSlipTasks] at ht
  | succ n ih =>
    intro used st k
    rcases generateTaskWithStock_cases g k products st used with
      hcase | ⟨t, heq, hmemp, hpos, hnu, hq1, hq2⟩
    · rw [genSlipTasks, hcase]
      exact ih used st k
    · rw [genSlipTasks, heq]
      simp only
      obtain ⟨ihp, ihu⟩ := ih (t.product.code :: used) _ (k + 2)
      constructor
      · rw [List.map_cons, List.pairwise_cons]
        constructor
        · intro b hb
          rw [List.mem_map] at hb
          obtain ⟨t2, ht2, hb2⟩ := hb
          have := ihu t2 ht2
          intro hcontra
          apply this
          rw [hb2, ← hcontra]
          exact List.mem_cons_self _ _
        · exact ihp
      · intro t2 ht2
        rcases List.mem_cons.mp ht2 with rfl | h2
        · exact hnu
        · have := ihu t2 h2
          intro hcontra
          exact this (List.mem_cons_of_mem _ hcontra)

theorem genSlipsAux_length (g : Nat → Nat) (products : List Product) (m : Nat) :
    ∀ (n i : Nat) (st : Ledger) (k : Nat),
      (genSlipsAux g products m n i st k).length = n := by
  intro n
  induction n with
  | zero => intro i st k; rfl
  | succ n2 ih =>
    intro i st k
    rw [genSlipsAux]
    simp only [List.length_cons]
    rw [ih]

theorem allTasks_nil : allTasks [] = [] := rfl

theorem allTasks_cons (s : Slip) (ss : List Slip) :
    allTasks (s :: ss) = s.tasks ++ allTasks ss := by
  simp [allTasks]

theorem genSlipsAux_ledger (g : Nat → Nat) (products : List Product) (m : Nat) :
    ∀ (n i : Nat) (st : Ledger) (k : Nat) (c : String) (v : Int),
      lookupLedger st c = some v → 0 ≤ v →
      ∃ v2, 0 ≤ v2 ∧ v2 + taskSum c (allTasks (genSlipsAux g products m n i st k)) = v := by
  intro n
  induction n with
  | zero =>
    intro i st k c v hv hnn
    exact ⟨v, hnn, by simp [genSlipsAux, allTasks_nil, taskSum_nil]⟩
  | succ n2 ih =>
    intro i st k c v hv hnn
    simp only [genSlipsAux]
    obtain ⟨v2, hl2, hnn2, hsum2⟩ := genSlipTasks_ledger g products m [] st k c v hv hnn
    obtain ⟨v3, hnn3, hsum3⟩ :=
      ih (i + 1) (genSlipTasks g products m [] st k).2.1
        (genSlipTasks g products m [] st k).2.2 c v2 hl2 hnn2
    refine ⟨v3, hnn3, ?_⟩
    rw [allTasks_cons]
    simp only
    rw [taskSum_append]
    omega

theorem genSlipsAux_slip_codes (g : Nat → Nat) (products : List Product) (m : Nat) :
    ∀ (n i : Nat) (st : Ledger) (k : Nat),
      ∀ s ∈ genSlipsAux g products m n i st k,
        (s.tasks.map (fun t => t.product.code)).Pairwise (· ≠ ·) := by
  intro n
  induction n with
  | zero =>
    intro i st k s hs
    exact absurd hs (List.not_mem_nil s)
  | succ n2 ih =>
    intro i st k s hs
    rw [genSlipsAux] at hs
    rcases List.mem_cons.mp hs with rfl | h2
    · exact (genSlipTasks_codes g products m [] st k).1
    · exact ih (i + 1) _ _ s h2

theorem lookup_foldl_set_untouched (ps : List Product) :
    ∀ (st : Ledger) (c : String), (∀ p ∈ ps, p.code ≠ c) →
      lookupLedger (ps.foldl (fun st p => setLedger st p.code (effStock p)) st) c =
        lookupLedger st c := by
  induction ps with
  | nil => intro st c _; rfl
  | cons q rest ih =>
    intro st c hall
    rw [List.foldl_cons]
    rw [ih _ c (fun p hp => hall p (List.mem_cons_of_mem q hp))]
    exact lookup_setLedger_other st q.code c (effStock q)
      (fun hh => hall q (List.mem_cons_self q rest) hh.symm)

theorem lookup_initLedger_mem (ps : List Product)
    (hdist : ps.Pairwise (fun a b => a.code ≠ b.code)) :
    ∀ p ∈ ps, lookupLedger (initLedger ps) p.code = some (effStock p) := by
  unfold initLedger
  suffices h : ∀ (st : Ledger), ps.Pairwise (fun a b => a.code ≠ b.code) →
      ∀ p ∈ ps, lookupLedger (ps.foldl (fun st p => setLedger st p.code (effStock p)) st)
        p.code = some (effStock p) by
    exact h [] hdist
  clear hdist
  induction ps with
  | nil =>
    intro st _ p hp
    exact absurd hp (List.not_mem_nil p)
  | cons q rest ih =>
    intro st hdist p hp
    rw [List.pairwise_cons] at hdist
    rw [List.foldl_cons]
    rcases List.mem_cons.mp hp with rfl | hp2
    · rw [lookup_foldl_set_untouched rest _ p.code
        (fun r hr => (hdist.1 r hr).symm)]
      exact lookup_setLedger_same st p.code (effStock p)
    · exact ih _ hdist.2 p hp2

/-- C1 (amended): for every products list with pairwise-distinct codes and
nonnegative effective stocks, and every outcome of the random source,
`generateSlips` returns exactly `N` slips and, for each product, the total
quantity of all tasks bearing its code across all slips never exceeds its
initial effective stock (the ledger value stays `≥ 0` throughout:
`genSlipTasks_ledger` / `genSlipsAux_ledger`).  The original claim, without
the nonnegativity hypothesis, fails: see
`generateSlips_negative_stock_cex`. -/
theorem generateSlips_stock_conservation (g : Nat → Nat) (ps : List Product)
    (N m : Nat)
    (hdist : ps.Pairwise (fun a b => a.code ≠ b.code))
    (hstock : ∀ p ∈ ps, 0 ≤ effStock p) :
    (generateSlips g ps N m).length = N ∧
    ∀ p ∈ ps, taskSum p.code (allTasks (generateSlips g ps N m)) ≤ effStock p := by
  constructor
  · exact genSlipsAux_length g ps m N 0 (initLedger ps) 0
  · intro p hp
    have hl := lookup_initLedger_mem ps hdist p hp
    obtain ⟨v2, hnn2, hsum2⟩ := genSlipsAux_ledger g ps m N 0 (initLedger ps) 0
      p.code (effStock p) hl (hstock p hp)
    unfold generateSlips
    omega

/-- C5: for every products list, slip count, items-per-slip and outcome of
the random source, no two tasks within a single returned slip share a
product code. -/
theorem generateSlips_unique_codes (g : Nat → Nat) (ps : List Product) (N m : Nat) :
    ∀ s ∈ generateSlips g ps N m,
      (s.tasks.map (fun t => t.product.code)).Pairwise (· ≠ ·) := by
  intro s hs
  exact genSlipsAux_slip_codes g ps m N 0 (initLedger ps) 0 s hs

/-- C1 counterexample: a single product with the (present, negative) stock
`-1` has pairwise-distinct codes, yet the total generated quantity for its
code, `0`, exceeds its initial effective stock `-1` — the claimed bound
fails without a nonnegativity hypothesis. -/
theorem generateSlips_negative_stock_cex :
    ([⟨"a", some (-1), []⟩] : List Product).Pairwise (fun a b => a.code ≠ b.code) ∧
    (generateSlips (fun _ => 0) [⟨"a", some (-1), []⟩] 1 1).length = 1 ∧
    ¬ taskSum "a" (allTasks (generateSlips (fun _ => 0) [⟨"a", some (-1), []⟩] 1 1)) ≤
      effStock ⟨"a", some (-1), []⟩ := by
  refine ⟨?_, ?_, ?_⟩ <;> decide

/-- C4 counterexample: with mode `"timeAttack"` and the given time limit
`0`, the sole entry matches the user, the mode and the time limit with
`totalAnswered = 7`, yet `getBestScore` returns `some 5` (its `score`),
because `options.timeLimit` is falsy in JS — contradicting the claim's
time-attack branch, which demands `some 7`. -/
theorem getBestScore_zero_timeLimit_cex :
    getBestScore [⟨"u", some "timeAttack", 5, 7, some 0, []⟩] "u" "timeAttack"
        (some ⟨some 0⟩) = some 5 ∧
    (∀ h ∈ [(⟨"u", some "timeAttack", 5, 7, some 0, []⟩ : HistoryEntry)],
      h.userId = "u" ∧ h.mode = some "timeAttack" ∧ h.timeLimit = some 0 ∧
        h.totalAnswered = 7) ∧
    some (5 : Int) ≠ some 7 := by
  refine ⟨?_, ?_, ?_⟩ <;> decide

theorem generateSlips_unique_codes_witness :
    ((([⟨⟨"a", some 5, []⟩, 1, false, none⟩] : List Task).map
        (fun t => t.product.code)).Pairwise (· ≠ ·)) :=
  generateSlips_unique_codes (fun _ => 0) [⟨"a", some 5, []⟩] 1 1
    ⟨"slip-0", 1, [⟨⟨"a", some 5, []⟩, 1, false, none⟩], false⟩ (by decide)

theorem generateSlips_stock_conservation_witness :
    (([⟨"a", some 5, []⟩, ⟨"b", none, []⟩] : List Product).Pairwise
      (fun a b => a.code ≠ b.code)) ∧
    (∀ p ∈ ([⟨"a", some 5, []⟩, ⟨"b", none, []⟩] : List Product), 0 ≤ effStock p) ∧
    ((generateSlips (fun n => n) [⟨"a", some 5, []⟩, ⟨"b", none, []⟩] 2 2).length = 2 ∧
      ∀ p ∈ ([⟨"a", some 5, []⟩, ⟨"b", none, []⟩] : List Product),
        taskSum p.code (allTasks (generateSlips (fun n => n)
          [⟨"a", some 5, []⟩, ⟨"b", none, []⟩] 2 2)) ≤ effStock p) :=
  ⟨by decide, by decide,
    generateSlips_stock_conservation (fun n => n) _ 2 2 (by decide) (by decide)⟩

theorem generateRandomTasks_count_witness :
    (([⟨"a", some 5, []⟩] : List Product).filter (fun p => 0 < effStock p) ≠ [] ∧
      (generateRandomTasks (fun _ => 0) [⟨"a", some 5, []⟩] 3 0).length = 3) ∧
    (([⟨"z", some 0, []⟩] : List Product).filter (fun p => 0 < effStock p) = [] ∧
      generateRandomTasks (fun _ => 0) [⟨"z", some 0, []⟩] 3 0 = []) :=
  ⟨⟨by decide, (generateRandomTasks_count (fun _ => 0) _ 3 0).1 (by decide)⟩,
   ⟨by decide, (generateRandomTasks_count (fun _ => 0) _ 3 0).2 (by decide)⟩⟩

theorem trimHistory_last_500_witness :
    ([1, 2, 3] : List Nat).length ≤ 500 ∧ trimHistory ([1, 2, 3] : List Nat) = [1, 2, 3] :=
  ⟨by decide, (trimHistory_last_500 [1, 2, 3]).2.2 (by decide)⟩

theorem generateRandomTask_spec_witness :
    generateRandomTask (fun _ => 0) 0 [⟨"a", some 5, []⟩] =
      some ⟨⟨"a", some 5, []⟩, 1, false, none⟩ ∧
    ((⟨⟨"a", some 5, []⟩, 1, false, none⟩ : Task).product ∈
        ([⟨"a", some 5, []⟩] : List Product).filter (fun p => 0 < effStock p) ∧
      (∃ r : Nat, 1 ≤ r ∧ r ≤ 3 ∧
        (⟨⟨"a", some 5, []⟩, 1, false, none⟩ : Task).quantity =
          min (r : Int) (effStock (⟨⟨"a", some 5, []⟩, 1, false, none⟩ : Task).product)) ∧
      1 ≤ (⟨⟨"a", some 5, []⟩, 1, false, none⟩ : Task).quantity ∧
      (⟨⟨"a", some 5, []⟩, 1, false, none⟩ : Task).quantity ≤
        effStock (⟨⟨"a", some 5, []⟩, 1, false, none⟩ : Task).product ∧
      (⟨⟨"a", some 5, []⟩, 1, false, none⟩ : Task).completed = false ∧
      (⟨⟨"a", some 5, []⟩, 1, false, none⟩ : Task).found = none) :=
  ⟨by decide, (generateRandomTask_spec (fun _ => 0) 0 [⟨"a", some 5, []⟩]).2
    ⟨⟨"a", some 5, []⟩, 1, false, none⟩ (by decide)⟩

theorem getBestScore_best_witness :
    ((getBestScore [⟨"u", some "timeAttack", 5, 7, some 60, []⟩] "u" "timeAttack"
          (some ⟨some 60⟩) = none ↔
        ∀ h ∈ [(⟨"u", some "timeAttack", 5, 7, some 60, []⟩ : HistoryEntry)],
          ¬(h.userId = "u" ∧ h.mode = some "timeAttack" ∧ h.timeLimit = some 60)) ∧
      ∀ v, getBestScore [⟨"u", some "timeAttack", 5, 7, some 60, []⟩] "u" "timeAttack"
          (some ⟨some 60⟩) = some v →
        (∃ h ∈ [(⟨"u", some "timeAttack", 5, 7, some 60, []⟩ : HistoryEntry)],
          h.userId = "u" ∧ h.mode = some "timeAttack" ∧ h.timeLimit = some 60 ∧
            h.totalAnswered = v) ∧
        ∀ h ∈ [(⟨"u", some "timeAttack", 5, 7, some 60, []⟩ : HistoryEntry)],
          h.userId = "u" → h.mode = some "timeAttack" → h.timeLimit = some 60 →
            h.totalAnswered ≤ v) ∧
    ((getBestScore [⟨"u", some "normal", 5, 7, none, []⟩] "u" "normal" none = none ↔
        ∀ h ∈ [(⟨"u", some "normal", 5, 7, none, []⟩ : HistoryEntry)],
          ¬(h.userId = "u" ∧ h.mode = some "normal")) ∧
      ∀ v, getBestScore [⟨"u", some "normal", 5, 7, none, []⟩] "u" "normal" none = some v →
        (∃ h ∈ [(⟨"u", some "normal", 5, 7, none, []⟩ : HistoryEntry)],
          h.userId = "u" ∧ h.mode = some "normal" ∧ h.score = v) ∧
        ∀ h ∈ [(⟨"u", some "normal", 5, 7, none, []⟩ : HistoryEntry)],
          h.userId = "u" → h.mode = some "normal" → h.score ≤ v) :=
  ⟨(getBestScore_best [⟨"u", some "timeAttack", 5, 7, some 60, []⟩] "u" "timeAttack"
      (some ⟨some 60⟩)).1 ⟨some 60⟩ 60 rfl rfl rfl (by decide),
   (getBestScore_best [⟨"u", some "normal", 5, 7, none, []⟩] "u" "normal" none).2
    (fun hcontra => absurd hcontra.1 (by decide))⟩

end PickingTrainer
